import Mathlib

/-!
Verification of the `ppt-checker` inconsistency-analysis pipeline.

This file shallowly embeds the analyzer from `src/ppt_analyzer.py` (plus the
data classes of `src/models.py`).  Python strings are modelled as `List Char`
(so that all definitions are executable and kernel-evaluable); Python floats
are modelled as rationals `ℚ` (exact values; the replies exercised here use
short decimal literals where float and rational comparison agree); Python
exceptions are modelled with `Except`/`Option`.  The external JSON library
(`json.loads`) and the two `re.findall` calls are modelled by concrete
executable parsers/matchers below that follow the documented semantics of
those library functions on the fragments the program uses.  `print`
statements are I/O and have no counterpart in the embedding.
-/

namespace PptChecker

/-! ### Python string primitives (over `List Char`) -/

/-- The character class stripped by Python `str.strip()` (ASCII whitespace). -/
def py_is_space (c : Char) : Bool :=
  c = ' ' || c = '\t' || c = '\n' || c = '\x0d' || c = '\x0b' || c = '\x0c'

/-- Python `str.strip()`: drop leading and trailing whitespace. -/
def py_strip (s : List Char) : List Char :=
  ((s.dropWhile py_is_space).reverse.dropWhile py_is_space).reverse

/-- Python `s[:-n]` for `n ≥ 0`: drop the final `n` characters (clamped). -/
def py_dropright (n : ℕ) (s : List Char) : List Char :=
  s.take (s.length - n)

/-- Python `str.lower()` (ASCII model). -/
def py_lower (s : List Char) : List Char :=
  s.map Char.toLower

/-! ### Data model (`src/models.py`) -/

/-- `models.SlideContent`: per-slide extracted content. -/
structure SlideContent where
  slide_number : ℕ
  text : List Char
  ocr_text : List Char
deriving DecidableEq, Repr

/-- `models.Inconsistency`: one structured finding, fields as annotated in the
dataclass (`type: str`, `confidence: float`, `slides: List[int]`,
`issue: str`, `evidence: List[str]`). -/
structure Inconsistency where
  type : List Char
  confidence : ℚ
  slides : List ℤ
  issue : List Char
  evidence : List (List Char)
deriving DecidableEq, Repr

/-! ### Deduplication (`PPTAnalyzer._remove_duplicates`, lines 263-275) -/

/-- The key of line 269: `(tuple(sorted(issue.slides)), issue.issue.lower()[:50])`. -/
def dedup_key (i : Inconsistency) : List ℤ × List Char :=
  (List.insertionSort (· ≤ ·) i.slides, (py_lower i.issue).take 50)

/-- The loop of `_remove_duplicates`: `seen` is the set of keys already kept
(modelled as a list used only through membership). -/
def remove_dup_aux : List Inconsistency → List (List ℤ × List Char) → List Inconsistency
  | [], _ => []
  | i :: rest, seen =>
    let k := dedup_key i
    if k ∈ seen then remove_dup_aux rest seen
    else i :: remove_dup_aux rest (k :: seen)

/-- `PPTAnalyzer._remove_duplicates`. -/
def remove_duplicates (issues : List Inconsistency) : List Inconsistency :=
  remove_dup_aux issues []

/-- Keep-first-per-key deduplication as the spec phrases it (§4.5): keep the
first occurrence of each key, drop every later finding with the same key. -/
def keep_first_by_key : List Inconsistency → List Inconsistency
  | [] => []
  | x :: rest =>
    x :: keep_first_by_key (rest.filter (fun y => decide (dedup_key y ≠ dedup_key x)))
termination_by l => l.length
decreasing_by
  simp only [List.length_cons]
  exact Nat.lt_succ_of_le (List.length_filter_le _ _)

/-! ### JSON values and `json.loads`

The repository calls the Python standard-library `json` module.  The model
below is a concrete executable JSON reader over `List Char` following the
strict `json.loads` grammar (objects, arrays, strings with the standard
escapes including `\uXXXX`, strict numbers, `true`/`false`/`null`; the
nonstandard `NaN`/`Infinity` literals are not modelled).  Duplicate object
keys keep the last occurrence, as Python dicts do. -/

inductive Json where
  | null
  | bool (b : Bool)
  | num (q : ℚ)
  | str (s : List Char)
  | arr (items : List Json)
  | obj (fields : List (List Char × Json))

/-- JSON inter-token whitespace. -/
def is_json_ws (c : Char) : Bool :=
  c = ' ' || c = '\t' || c = '\n' || c = '\x0d'

def skip_ws : List Char → List Char
  | [] => []
  | c :: rest => if is_json_ws c then skip_ws rest else c :: rest

def hex_val (c : Char) : Option ℕ :=
  if c.isDigit then some (c.toNat - 48)
  else if 'a' ≤ c ∧ c ≤ 'f' then some (c.toNat - 87)
  else if 'A' ≤ c ∧ c ≤ 'F' then some (c.toNat - 55)
  else none

/-- Contents of a JSON string literal, after the opening quote.  Returns the
decoded characters and the remaining input after the closing quote. -/
def parse_jstring_chars : List Char → Option (List Char × List Char)
  | [] => none
  | '"' :: rest => some ([], rest)
  | '\\' :: 'u' :: h1 :: h2 :: h3 :: h4 :: rest => do
    let v1 ← hex_val h1
    let v2 ← hex_val h2
    let v3 ← hex_val h3
    let v4 ← hex_val h4
    let (s, r) ← parse_jstring_chars rest
    some (Char.ofNat (((v1 * 16 + v2) * 16 + v3) * 16 + v4) :: s, r)
  | '\\' :: e :: rest => do
    let c ←
      if e = '"' then some '"'
      else if e = '\\' then some '\\'
      else if e = '/' then some '/'
      else if e = 'b' then some '\x08'
      else if e = 'f' then some '\x0c'
      else if e = 'n' then some '\n'
      else if e = 'r' then some '\x0d'
      else if e = 't' then some '\t'
      else none
    let (s, r) ← parse_jstring_chars rest
    some (c :: s, r)
  | c :: rest =>
    if c.toNat < 32 then none  -- strict mode rejects raw control characters
    else do
      let (s, r) ← parse_jstring_chars rest
      some (c :: s, r)

def digits_to_nat (ds : List Char) : ℕ :=
  ds.foldl (fun acc c => acc * 10 + (c.toNat - 48)) 0

/-- The exact rational `sm * 10 ^ e`, built with `Rat.divInt` so that it
kernel-evaluates. -/
def make_q (sm : ℤ) (e : ℤ) : ℚ :=
  match e with
  | Int.ofNat k => Rat.divInt (sm * ((10 ^ k : ℕ) : ℤ)) 1
  | Int.negSucc k => Rat.divInt sm ((10 ^ (k + 1) : ℕ) : ℤ)

/-- A strict JSON number token (`-?(0|[1-9][0-9]*)(\.[0-9]+)?([eE][-+]?[0-9]+)?`),
returning its exact rational value and the rest of the input. -/
def parse_jnum (s : List Char) : Option (ℚ × List Char) :=
  let (neg, s1) : Bool × List Char :=
    match s with
    | '-' :: r => (true, r)
    | _ => (false, s)
  let intDigits := s1.takeWhile Char.isDigit
  let s2 := s1.dropWhile Char.isDigit
  match intDigits with
  | [] => none
  | d0 :: drest =>
    let (ip, rest2) : List Char × List Char :=
      if d0 = '0' then ([d0], drest ++ s2) else (intDigits, s2)
    let (fp, rest3) : List Char × List Char :=
      match rest2 with
      | '.' :: r =>
        let fd := r.takeWhile Char.isDigit
        if fd.isEmpty then ([], rest2) else (fd, r.dropWhile Char.isDigit)
      | _ => ([], rest2)
    let (expv, rest4) : Option ℤ × List Char :=
      match rest3 with
      | c :: r =>
        if c = 'e' || c = 'E' then
          let (es, r2) : ℤ × List Char :=
            match r with
            | '+' :: rr => (1, rr)
            | '-' :: rr => (-1, rr)
            | _ => (1, r)
          let ed := r2.takeWhile Char.isDigit
          if ed.isEmpty then (some 0, rest3)
          else (some (es * (digits_to_nat ed : ℤ)), r2.dropWhile Char.isDigit)
        else (some 0, rest3)
      | [] => (some 0, rest3)
    match expv with
    | none => none
    | some ev =>
      let m : ℤ := (digits_to_nat (ip ++ fp) : ℤ)
      some (make_q (if neg then -m else m) (ev - (fp.length : ℤ)), rest4)

def obrace : Char := Char.ofNat 123

def cbrace : Char := Char.ofNat 125

mutual

def parse_jvalue : ℕ → List Char → Option (Json × List Char)
  | 0, _ => none
  | f + 1, s =>
    match skip_ws s with
    | [] => none
    | c :: rest =>
      if c = obrace then parse_jobj f rest
      else if c = '[' then parse_jarr f rest
      else if c = '"' then
        match parse_jstring_chars rest with
        | some (cs, r) => some (Json.str cs, r)
        | none => none
      else if ("true").data.isPrefixOf (c :: rest) then some (Json.bool true, (c :: rest).drop 4)
      else if ("false").data.isPrefixOf (c :: rest) then some (Json.bool false, (c :: rest).drop 5)
      else if ("null").data.isPrefixOf (c :: rest) then some (Json.null, (c :: rest).drop 4)
      else
        match parse_jnum (c :: rest) with
        | some (q, r) => some (Json.num q, r)
        | none => none

def parse_jobj : ℕ → List Char → Option (Json × List Char)
  | 0, _ => none
  | f + 1, s =>
    match skip_ws s with
    | [] => none
    | c :: rest =>
      if c = cbrace then some (Json.obj [], rest)
      else parse_members f (c :: rest) []

def parse_members : ℕ → List Char → List (List Char × Json) → Option (Json × List Char)
  | 0, _, _ => none
  | f + 1, s, acc =>
    match skip_ws s with
    | '"' :: rest =>
      match parse_jstring_chars rest with
      | none => none
      | some (key, r1) =>
        match skip_ws r1 with
        | ':' :: r2 =>
          match parse_jvalue f r2 with
          | none => none
          | some (v, r3) =>
            match skip_ws r3 with
            | ',' :: r4 => parse_members f r4 (acc ++ [(key, v)])
            | c :: r4 => if c = cbrace then some (Json.obj (acc ++ [(key, v)]), r4) else none
            | [] => none
        | _ => none
    | _ => none

def parse_jarr : ℕ → List Char → Option (Json × List Char)
  | 0, _ => none
  | f + 1, s =>
    match skip_ws s with
    | [] => none
    | c :: rest =>
      if c = ']' then some (Json.arr [], rest)
      else parse_items f (c :: rest) []

def parse_items : ℕ → List Char → List Json → Option (Json × List Char)
  | 0, _, _ => none
  | f + 1, s, acc =>
    match parse_jvalue f s with
    | none => none
    | some (v, r1) =>
      match skip_ws r1 with
      | ',' :: r2 => parse_items f r2 (acc ++ [v])
      | ']' :: r2 => some (Json.arr (acc ++ [v]), r2)
      | _ => none

end

/-- `json.loads`: parse one document, allowing surrounding whitespace only.
The fuel `4 * (length + 4)` over-approximates the recursion depth (at most
three nested calls per consumed character). -/
def json_loads (s : List Char) : Option Json :=
  match parse_jvalue (4 * (s.length + 4)) s with
  | some (v, rest) => if skip_ws rest = [] then some v else none
  | none => none

/-- Python `dict.get` on the dict built from a JSON object (last key wins). -/
def dict_get (k : List Char) (fields : List (List Char × Json)) : Option Json :=
  match fields.reverse.find? (fun p => decide (p.1 = k)) with
  | some p => some p.2
  | none => none

/-! ### Response parsing (`PPTAnalyzer._parse_response`, lines 231-261) -/

/-- Lines 233-238: strip the surrounding code fence.  `text[7:-3]` and
`text[3:-3]` drop the final three characters unconditionally once a leading
fence was seen. -/
def clean_text (s : List Char) : List Char :=
  let text := py_strip s
  if ("```json").data.isPrefixOf text then py_dropright 3 (text.drop 7)
  else if ("```").data.isPrefixOf text then py_dropright 3 (text.drop 3)
  else text

/-- Modelled from the spec (§4.5): "Strip a leading/trailing fenced-code-block
marker (with or without a language tag) if present, before parsing as JSON",
with the stripped remainder otherwise unchanged.  Used only to compare the
spec's described transformation with `clean_text` above. -/
def spec_strip_fences (s : List Char) : List Char :=
  let t := py_strip s
  let t1 := if ("```").data.isPrefixOf t then (t.drop 3).dropWhile Char.isAlpha else t
  if ("```").data.isSuffixOf t1 then py_dropright 3 t1 else t1

/-- A Python float as `float()` can produce it: a finite value (exact
rational model), a signed infinity, or NaN. -/
inductive PyFloat where
  | finite (q : ℚ)
  | inf (neg : Bool)
  | nan
deriving DecidableEq

/-- A run of decimal digits with PEP-515 single underscores between digits
(as `float()` accepts).  Returns the digits with underscores removed and the
unconsumed rest; an underscore not placed between two digits is left in the
rest, where the caller's end-of-literal check rejects it, exactly as
`float("1_")` or `float("1__2")` raise. -/
def py_digit_run : List Char → List Char × List Char
  | c :: '_' :: c2 :: rest =>
    if c.isDigit then
      if c2.isDigit then
        let (ds, r) := py_digit_run (c2 :: rest)
        (c :: ds, r)
      else ([c], '_' :: c2 :: rest)
    else ([], c :: '_' :: c2 :: rest)
  | c :: rest =>
    if c.isDigit then
      let (ds, r) := py_digit_run rest
      (c :: ds, r)
    else ([], c :: rest)
  | [] => ([], [])

/-- Python `float(x)` applied to a string: optional sign, then the words
`inf`/`infinity`/`nan` (case-insensitive) or a decimal literal with optional
fraction and exponent and PEP-515 underscores. -/
def parse_py_float_v (s : List Char) : Option PyFloat :=
  let t := py_strip s
  let (neg, t1) : Bool × List Char :=
    match t with
    | '-' :: r => (true, r)
    | '+' :: r => (false, r)
    | _ => (false, t)
  let low := py_lower t1
  if low = ("inf").data || low = ("infinity").data then some (PyFloat.inf neg)
  else if low = ("nan").data then some PyFloat.nan
  else
    let (ip, r1) := py_digit_run t1
    let (fp, r2) : List Char × List Char :=
      match r1 with
      | '.' :: r => py_digit_run r
      | _ => ([], r1)
    if ip.isEmpty && fp.isEmpty then none
    else
      let m : ℤ := (digits_to_nat (ip ++ fp) : ℤ)
      let sm : ℤ := if neg then -m else m
      match r2 with
      | [] => some (PyFloat.finite (make_q sm (0 - (fp.length : ℤ))))
      | c :: r =>
        if c = 'e' || c = 'E' then
          let (es, r3) : ℤ × List Char :=
            match r with
            | '+' :: rr => (1, rr)
            | '-' :: rr => (-1, rr)
            | _ => (1, r)
          let (ed, r4) := py_digit_run r3
          if ed.isEmpty then none
          else if r4.isEmpty then
            some (PyFloat.finite (make_q sm (es * (digits_to_nat ed : ℤ) - (fp.length : ℤ))))
          else none
        else none

/-- Python `float(x)` as used on line 246, exactly: numbers and booleans
coerce, strings go through `float()`'s grammar (including `inf`/`nan`),
anything else raises (`ValueError`/`TypeError`), modelled as `Except.error`.
This is the only operation in lines 244-250 that can raise on an object
element. -/
def py_float_full : Json → Except Unit PyFloat
  | Json.num q => Except.ok (PyFloat.finite q)
  | Json.bool b => Except.ok (PyFloat.finite (if b then 1 else 0))
  | Json.str s =>
    match parse_py_float_v s with
    | some v => Except.ok v
    | none => Except.error ()
  | _ => Except.error ()

/-- The finite restriction of `py_float_full`, used by the typed pipeline
layer below (an infinite or NaN confidence has no rational counterpart in
this embedding). -/
def py_float_j (j : Json) : Except Unit ℚ :=
  match py_float_full j with
  | Except.ok (PyFloat.finite q) => Except.ok q
  | _ => Except.error ()

/-- The typed pipeline layer restricts findings to the dataclass annotations
`str`/`List[int]`/`List[str]` (`models.py`, spec §3) — the domain on which
the downstream dedup key (`sorted(slides)`, `issue.lower()`) is defined.
The dataclass itself stores values unvalidated; `build_one_py` below is the
exact model of that boundary, and `build_one_refines_py` links the two. -/
def as_str : Json → Except Unit (List Char)
  | Json.str s => Except.ok s
  | _ => Except.error ()

def as_int : Json → Except Unit ℤ
  | Json.num q => if q.den = 1 then Except.ok q.num else Except.error ()
  | _ => Except.error ()

def as_int_list_items : List Json → Except Unit (List ℤ)
  | [] => Except.ok []
  | j :: rest =>
    match as_int j with
    | Except.error e => Except.error e
    | Except.ok n =>
      match as_int_list_items rest with
      | Except.error e => Except.error e
      | Except.ok ns => Except.ok (n :: ns)

def as_int_list : Json → Except Unit (List ℤ)
  | Json.arr items => as_int_list_items items
  | _ => Except.error ()

def as_str_list_items : List Json → Except Unit (List (List Char))
  | [] => Except.ok []
  | j :: rest =>
    match as_str j with
    | Except.error e => Except.error e
    | Except.ok s =>
      match as_str_list_items rest with
      | Except.error e => Except.error e
      | Except.ok ss => Except.ok (s :: ss)

def as_str_list : Json → Except Unit (List (List Char))
  | Json.arr items => as_str_list_items items
  | _ => Except.error ()

/-- Lines 244-250 for one object element, restricted to dataclass-conforming
values (the domain of the downstream pipeline; `build_one_py` below is the
unrestricted boundary): `item.get` with the defaults `"Unknown"`, `0.0`,
`[]`, `""`, `[]` for absent keys. -/
def build_one_obj (fields : List (List Char × Json)) : Except Unit Inconsistency := do
  let ty ← as_str ((dict_get ("type").data fields).getD (Json.str ("Unknown").data))
  let conf ← py_float_j ((dict_get ("confidence").data fields).getD (Json.num 0))
  let slides ← as_int_list ((dict_get ("slides").data fields).getD (Json.arr []))
  let issue ← as_str ((dict_get ("issue").data fields).getD (Json.str []))
  let evid ← as_str_list ((dict_get ("evidence").data fields).getD (Json.arr []))
  Except.ok { type := ty, confidence := conf, slides := slides, issue := issue, evidence := evid }

/-- Lines 244-250: build one dataclass-conforming `Inconsistency` from one
array element.  `item.get` on a non-object raises, modelled as
`Except.error`. -/
def build_one : Json → Except Unit Inconsistency
  | Json.obj fields => build_one_obj fields
  | _ => Except.error ()

/-- The `for item in ...` loop of lines 243-251: an exception on any element
aborts the whole loop. -/
def build_all : List Json → Except Unit (List Inconsistency)
  | [] => Except.ok []
  | j :: rest =>
    match build_one j with
    | Except.error e => Except.error e
    | Except.ok f =>
      match build_all rest with
      | Except.error e => Except.error e
      | Except.ok fs => Except.ok (f :: fs)

/-- `data.get("inconsistencies", [])` and the loop over it.  Iterating an
empty string or empty dict runs zero iterations; iterating any other
non-array value raises inside the loop. -/
def build_findings : Json → Except Unit (List Inconsistency)
  | Json.obj fields =>
    match (dict_get ("inconsistencies").data fields).getD (Json.arr []) with
    | Json.arr items => build_all items
    | Json.str [] => Except.ok []
    | Json.obj [] => Except.ok []
    | _ => Except.error ()
  | _ => Except.error ()

/-- `PPTAnalyzer._parse_response`, typed layer (the findings it yields feed
the pipeline whose dedup key needs the dataclass field types;
`parse_response_py` below is the same function at the unvalidated boundary).
The `slides` argument is unused, exactly as in the source.  The two `except`
branches both return `[]` (after printing warnings, which are I/O and not
modelled). -/
def parse_response (response_text : List Char) (_slides : List SlideContent) : List Inconsistency :=
  let text := clean_text response_text
  match json_loads text with
  | none => []
  | some data =>
    match build_findings data with
    | Except.ok results => results
    | Except.error _ => []

def except_is_err {α : Type} : Except Unit α → Bool
  | Except.error _ => true
  | Except.ok _ => false

/-- The reply is a JSON object whose top level lacks the `inconsistencies` key. -/
def missing_key_b : Json → Bool
  | Json.obj fields => (dict_get ("inconsistencies").data fields).isNone
  | _ => false

/-- The three parse-failure shapes named by the spec: malformed JSON, JSON
whose top level lacks the `inconsistencies` key, and any other failure while
building findings. -/
def parse_failure_b (s : List Char) : Bool :=
  match json_loads (clean_text s) with
  | none => true
  | some d => missing_key_b d || except_is_err (build_findings d)

/-- One Finding exactly as lines 244-250 store it: the dataclass performs no
validation, so `type`, `slides`, `issue`, `evidence` hold whatever JSON
values arrive (defaults applied only for absent keys). -/
structure PyFinding where
  type : Json
  confidence : PyFloat
  slides : Json
  issue : Json
  evidence : Json

/-- Lines 244-250 for one object element, without the typed restriction: the
only operation that can raise is `float()` on the confidence value. -/
def build_one_py_obj (fields : List (List Char × Json)) : Except Unit PyFinding := do
  let conf ← py_float_full ((dict_get ("confidence").data fields).getD (Json.num 0))
  Except.ok
    { type := (dict_get ("type").data fields).getD (Json.str ("Unknown").data)
      confidence := conf
      slides := (dict_get ("slides").data fields).getD (Json.arr [])
      issue := (dict_get ("issue").data fields).getD (Json.str [])
      evidence := (dict_get ("evidence").data fields).getD (Json.arr []) }

/-- Lines 244-251 at the exact boundary: `item.get` on a non-object raises;
otherwise only `float()` can. -/
def build_one_py : Json → Except Unit PyFinding
  | Json.obj fields => build_one_py_obj fields
  | _ => Except.error ()

def build_all_py : List Json → Except Unit (List PyFinding)
  | [] => Except.ok []
  | j :: rest =>
    match build_one_py j with
    | Except.error e => Except.error e
    | Except.ok f =>
      match build_all_py rest with
      | Except.error e => Except.error e
      | Except.ok fs => Except.ok (f :: fs)

def build_findings_py : Json → Except Unit (List PyFinding)
  | Json.obj fields =>
    match (dict_get ("inconsistencies").data fields).getD (Json.arr []) with
    | Json.arr items => build_all_py items
    | Json.str [] => Except.ok []
    | Json.obj [] => Except.ok []
    | _ => Except.error ()
  | _ => Except.error ()

/-- `PPTAnalyzer._parse_response` at the exact (unvalidated) boundary; the
typed `parse_response` above is its restriction to dataclass-conforming
findings (see `build_one_refines_py`). -/
def parse_response_py (response_text : List Char) (_slides : List SlideContent) :
    List PyFinding :=
  let text := clean_text response_text
  match json_loads text with
  | none => []
  | some data =>
    match build_findings_py data with
    | Except.ok results => results
    | Except.error _ => []

/-! ### The `re.findall` calls of `_create_slide_summary` (lines 181-183)

Python `re` on these two patterns: alternation tried left to right at each
position, leftmost match wins, quantifiers are greedy with backtracking, and
`findall` collects non-overlapping matches continuing at each match end.
Every quantifier in both patterns ranges over a single character class, which
the token list below represents directly (`\w`, `\d`, `\s` in their ASCII
reading). -/

def is_word_char (c : Char) : Bool :=
  c.isAlpha || c.isDigit || c = '_'

inductive Tok where
  | cls (p : Char → Bool) (lo : ℕ) (hi : Option ℕ)
  | wb

def char_at (text : List Char) (pos : ℕ) : Option Char :=
  text.get? pos

/-- The `\b` word-boundary test at a position. -/
def is_wb (text : List Char) (pos : ℕ) : Bool :=
  let wordAt : Option Char → Bool := fun oc =>
    match oc with
    | some c => is_word_char c
    | none => false
  let before :=
    match pos with
    | 0 => false
    | p + 1 => wordAt (char_at text p)
  before != wordAt (char_at text pos)

/-- Length of the maximal run of class characters from `pos`, capped at `hi`. -/
def count_cls (p : Char → Bool) (text : List Char) (pos : ℕ) (hi : Option ℕ) : ℕ :=
  let run := ((text.drop pos).takeWhile p).length
  match hi with
  | none => run
  | some h => min run h

mutual

/-- Match a token sequence at `pos`, returning the end position of the first
(greedy, backtracking) success. -/
def match_toks (text : List Char) : ℕ → List Tok → ℕ → Option ℕ
  | 0, _, _ => none
  | _ + 1, [], pos => some pos
  | f + 1, Tok.wb :: rest, pos =>
    if is_wb text pos then match_toks text f rest pos else none
  | f + 1, Tok.cls p lo hi :: rest, pos =>
    let maxN := count_cls p text pos hi
    if maxN < lo then none
    else try_counts text f rest pos lo (maxN - lo)

/-- Try repetition counts `lo + k, lo + k - 1, ..., lo` in greedy order. -/
def try_counts (text : List Char) : ℕ → List Tok → ℕ → ℕ → ℕ → Option ℕ
  | 0, _, _, _, _ => none
  | f + 1, rest, pos, lo, 0 => match_toks text f rest (pos + lo)
  | f + 1, rest, pos, lo, k + 1 =>
    match match_toks text f rest (pos + lo + (k + 1)) with
    | some e => some e
    | none => try_counts text f rest pos lo k

end

/-- Fuel bounding the recursion depth of one anchored match attempt. -/
def re_fuel (text : List Char) (toks : List Tok) : ℕ :=
  (text.length + 2) * (toks.length + 2)

def first_match (text : List Char) (branches : List (List Tok)) (pos : ℕ) : Option ℕ :=
  match branches with
  | [] => none
  | b :: rest =>
    match match_toks text (re_fuel text b) b pos with
    | some e => some e
    | none => first_match text rest pos

def find_from (branches : List (List Tok)) (text : List Char) : ℕ → ℕ → List (List Char)
  | 0, _ => []
  | f + 1, pos =>
    if text.length < pos then []
    else
      match first_match text branches pos with
      | some e =>
        ((text.drop pos).take (e - pos))
          :: find_from branches text f (if pos < e then e else pos + 1)
      | none => find_from branches text f (pos + 1)

/-- `re.findall(pattern, text)` for an alternation of class-quantifier
sequences (no capture groups, so whole matches are returned). -/
def findall (branches : List (List Tok)) (text : List Char) : List (List Char) :=
  find_from branches text (text.length + 2) 0

/-- Line 181: `r'\$?[\d,]+\.?\d*[%MBK]?'`. -/
def num_pattern : List (List Tok) :=
  [[Tok.cls (fun c => c = '$') 0 (some 1),
    Tok.cls (fun c => c.isDigit || c = ',') 1 none,
    Tok.cls (fun c => c = '.') 0 (some 1),
    Tok.cls Char.isDigit 0 none,
    Tok.cls (fun c => c = '%' || c = 'M' || c = 'B' || c = 'K') 0 (some 1)]]

/-- Line 183: `r'\b\d{4}\b|\b\d{1,2}\/\d{1,2}\/\d{2,4}\b|\b\w+\s+\d{1,2},?\s+\d{4}\b'`. -/
def date_pattern : List (List Tok) :=
  [[Tok.wb, Tok.cls Char.isDigit 4 (some 4), Tok.wb],
   [Tok.wb, Tok.cls Char.isDigit 1 (some 2), Tok.cls (fun c => c = '/') 1 (some 1),
    Tok.cls Char.isDigit 1 (some 2), Tok.cls (fun c => c = '/') 1 (some 1),
    Tok.cls Char.isDigit 2 (some 4), Tok.wb],
   [Tok.wb, Tok.cls is_word_char 1 none, Tok.cls py_is_space 1 none,
    Tok.cls Char.isDigit 1 (some 2), Tok.cls (fun c => c = ',') 0 (some 1),
    Tok.cls py_is_space 1 none, Tok.cls Char.isDigit 4 (some 4), Tok.wb]]

/-! ### `PPTAnalyzer._create_slide_summary` (lines 175-188) -/

/-- `str(n)` for a natural number (the slide number). -/
def nat_digits : ℕ → ℕ → List Char
  | 0, _ => []
  | f + 1, n =>
    if n < 10 then [Char.ofNat (48 + n)]
    else nat_digits f (n / 10) ++ [Char.ofNat (48 + n % 10)]

def nat_repr (n : ℕ) : List Char :=
  nat_digits (n + 1) n

/-- The apostrophe character (written via its code point). -/
def py_q : Char := Char.ofNat 39

/-- `str(...)` of a Python list of strings, as interpolated by the f-string
on line 186 (repr quoting of quotes/backslashes inside items not modelled). -/
def py_repr_strlist (xs : List (List Char)) : List Char :=
  ("[").data ++ List.intercalate (", ").data (xs.map (fun x => py_q :: (x ++ [py_q])))
    ++ ("]").data

/-- Line 186: `f"Slide {slide.slide_number}: Numbers: {numbers}, Dates: {dates}"`. -/
def summary_entry (n : ℕ) (numbers dates : List (List Char)) : List Char :=
  ("Slide ").data ++ nat_repr n ++ (": Numbers: ").data ++ py_repr_strlist numbers
    ++ (", Dates: ").data ++ py_repr_strlist dates

/-- The loop of `_create_slide_summary` (appending to `summary_parts` in
slide order): slides whose text matches neither pattern contribute no entry. -/
def summary_parts : List SlideContent → List (List Char)
  | [] => []
  | slide :: rest =>
    let numbers := findall num_pattern slide.text
    let dates := findall date_pattern slide.text
    if numbers.isEmpty && dates.isEmpty then summary_parts rest
    else summary_entry slide.slide_number numbers dates :: summary_parts rest

/-- `PPTAnalyzer._create_slide_summary`. -/
def create_slide_summary (slides : List SlideContent) : List Char :=
  List.intercalate ("\n").data (summary_parts slides)

/-! ### Content extraction (`extract_slide_content`, lines 34-91)

The document collaborator (python-pptx) is external: a deck is modelled as
the data the extractor inspects — per slide, a list of shapes, each shape
optionally exposing a `text` attribute, a `text_frame` (paragraphs of runs),
and possibly an `image` attribute.  Truthiness of `shape.text_frame` is
presence. -/

structure TextFrame where
  paragraphs : List (List (List Char))
deriving DecidableEq

structure Shape where
  text : Option (List Char)
  text_frame : Option TextFrame
  image : Bool
deriving DecidableEq

structure Slide where
  shapes : List Shape
deriving DecidableEq

/-- Lines 68-74: the `text_frame` branch collects the stripped nonempty
paragraph texts (each paragraph text is its runs concatenated). -/
def frame_parts (shape : Shape) : List (List Char) :=
  match shape.text_frame with
  | some tf =>
    tf.paragraphs.foldl (fun a para =>
      let para_text := para.flatten
      if (py_strip para_text).isEmpty then a else a ++ [py_strip para_text]) []
  | none => []

/-- Lines 65-74: one shape's contribution.  `if hasattr(shape, "text") and
shape.text.strip():` falls through to the `elif` when the stripped text is
empty. -/
def shape_parts (shape : Shape) : List (List Char) :=
  match shape.text with
  | some t => if (py_strip t).isEmpty then frame_parts shape else [py_strip t]
  | none => frame_parts shape

/-- `PPTAnalyzer._get_slide_text` (lines 61-76). -/
def get_slide_text (slide : Slide) : List Char :=
  List.intercalate ("\n").data
    (slide.shapes.foldl (fun acc shape => acc ++ shape_parts shape) [])

/-- `PPTAnalyzer._get_ocr_text` (lines 78-91): the loop body is `pass` (the
TODO on lines 85-87), so `ocr_text` stays `[]` and the join is empty. -/
def get_ocr_text (slide : Slide) : List Char :=
  List.intercalate ("\n").data
    (slide.shapes.foldl (fun acc shape => if shape.image then acc else acc) [])

/-- `PPTAnalyzer.extract_slide_content` (lines 34-59): `enumerate(slides, 1)`
with one `SlideContent` per slide.  (A deck that cannot be opened raises
before this point; that fatal path is outside the extraction loop.) -/
def extract_slide_content (deck : List Slide) (use_ocr : Bool) : List SlideContent :=
  (List.enumFrom 1 deck).map (fun p =>
    { slide_number := p.1
      text := get_slide_text p.2
      ocr_text := if use_ocr then get_ocr_text p.2 else [] })

/-! ### Prompt formatting (`_format_slides`, lines 163-173) -/

/-- `PPTAnalyzer._format_slides`: the `[OCR TEXT]` section is appended only
when `slide.ocr_text` is truthy (nonempty). -/
def format_slides (batch : List SlideContent) : List Char :=
  List.intercalate ("\n\n").data (batch.map (fun slide =>
    let content := ("=== SLIDE ").data ++ nat_repr slide.slide_number
      ++ (" ===\n").data ++ slide.text
    if !slide.ocr_text.isEmpty then
      content ++ ("\n[OCR TEXT]: ").data ++ slide.ocr_text
    else content))

/-- `_format_slides` with the `[OCR TEXT]` branch removed, for comparison. -/
def format_slides_plain (batch : List SlideContent) : List Char :=
  List.intercalate ("\n\n").data (batch.map (fun slide =>
    ("=== SLIDE ").data ++ nat_repr slide.slide_number ++ (" ===\n").data ++ slide.text))

/-! ### Orchestration (`analyze_inconsistencies` and helpers, lines 93-161)

The language-model collaborator is external; it is modelled as an oracle
`List Char → Except Unit (List Char)` from prompt to reply text (or a raised
API error).  Every `model.generate_content` call site is logged with the
kind of pass that issued it, so that call counts are observable; the
`time.sleep(1)` pacing and all `print`s are outside the embedding. -/

inductive CallKind where
  | batch
  | globalPass
deriving DecidableEq

/-- The slice loop of `_batch_analysis` (line 114):
`range(0, len(slides), batch_size)` with `slides[i:i + batch_size]`.
Requires `1 ≤ bs` (Python raises on step 0); the fuel equals the slide count
and is exhausted only after the list is. -/
def batchesAux (bs : ℕ) : ℕ → List SlideContent → List (List SlideContent)
  | 0, _ => []
  | _, [] => []
  | fuel + 1, l => l.take bs :: batchesAux bs fuel (l.drop bs)

def batches (bs : ℕ) (slides : List SlideContent) : List (List SlideContent) :=
  batchesAux bs slides.length slides

/-- The prompt template of `_build_prompt` (lines 190-229). -/
def build_prompt (content : List Char) (is_batch : Bool) : List Char :=
  let scope := if is_batch then ("within these slides").data
    else ("across the entire presentation").data
  ("You are an expert business analyst reviewing a PowerPoint presentation for inconsistencies. \n\nCRITICAL INSTRUCTIONS:\n- Only flag GENUINE business logic inconsistencies that would concern executives\n- Ignore stylistic differences, synonyms, or different phrasings of the same concept\n- Focus on factual/numerical conflicts, timeline errors, and logical contradictions\n- Provide specific evidence with exact quotes\n- Rate confidence 0.0-1.0 for each finding\n\nINCONSISTENCY TYPES TO DETECT ").data
  ++ scope
  ++ (":\n1. Numerical conflicts (revenue figures, percentages that don\x27t add up, contradictory metrics)\n2. Timeline mismatches (date conflicts, impossible sequences, chronological errors)\n3. Logical contradictions (mutually exclusive statements about market, competition, etc.)\n4. Data relationship errors (parts don\x27t sum to whole, inconsistent breakdowns)\n\nCONTENT TO ANALYZE:\n").data
  ++ content
  ++ ("\n\nRespond in JSON format only:\n\x7b\n    \"inconsistencies\": [\n        \x7b\n            \"type\": \"Numerical Conflict|Timeline Mismatch|Logical Contradiction|Data Relationship Error\",\n            \"confidence\": 0.85,\n            \"slides\": [3, 8],\n            \"issue\": \"Brief description of the inconsistency\",\n            \"evidence\": [\n                \"Exact quote from slide 3\",\n                \"Exact quote from slide 8\"\n            ]\n        \x7d\n    ]\n\x7d\n\nIf no genuine inconsistencies are found, return: \x7b\"inconsistencies\": []\x7d\n").data

/-- `PPTAnalyzer._analyze_batch` (lines 141-151): one model call; an API
failure is caught and yields no findings.  Returns the findings together
with the logged call. -/
def analyze_batch (oracle : List Char → Except Unit (List Char))
    (batch : List SlideContent) : List Inconsistency × List (CallKind × List Char) :=
  let prompt := build_prompt (format_slides batch) true
  match oracle prompt with
  | Except.ok replyText => (parse_response replyText batch, [(CallKind.batch, prompt)])
  | Except.error _ => ([], [(CallKind.batch, prompt)])

/-- The batch loop of `_batch_analysis` (lines 111-127); each group's
failure is caught and later groups still run. -/
def batch_analysis_go (oracle : List Char → Except Unit (List Char)) :
    List (List SlideContent) → List Inconsistency × List (CallKind × List Char)
  | [] => ([], [])
  | b :: rest =>
    let r := analyze_batch oracle b
    let rs := batch_analysis_go oracle rest
    (r.1 ++ rs.1, r.2 ++ rs.2)

def batch_analysis (oracle : List Char → Except Unit (List Char)) (bs : ℕ)
    (slides : List SlideContent) : List Inconsistency × List (CallKind × List Char) :=
  batch_analysis_go oracle (batches bs slides)

/-- `PPTAnalyzer._analyze_global_stuff` (lines 153-161): the single
whole-deck call over the summary. -/
def analyze_global_stuff (oracle : List Char → Except Unit (List Char))
    (summary : List Char) (slides : List SlideContent) :
    List Inconsistency × List (CallKind × List Char) :=
  let prompt := build_prompt summary false
  match oracle prompt with
  | Except.ok replyText => (parse_response replyText slides, [(CallKind.globalPass, prompt)])
  | Except.error _ => ([], [(CallKind.globalPass, prompt)])

/-- `PPTAnalyzer._cross_slide_analysis` (lines 129-139). -/
def cross_slide_analysis (oracle : List Char → Except Unit (List Char))
    (slides : List SlideContent) : List Inconsistency × List (CallKind × List Char) :=
  analyze_global_stuff oracle (create_slide_summary slides) slides

/-- Lines 102-107 of `analyze_inconsistencies`: merge, filter at the 0.7
threshold (`issue.confidence >= 0.7`), deduplicate. -/
def analyze_core (all_issues : List Inconsistency) : List Inconsistency :=
  remove_duplicates (all_issues.filter (fun i => decide (Rat.divInt 7 10 ≤ i.confidence)))

/-- `PPTAnalyzer.analyze_inconsistencies` (lines 93-109): batch pass, then
the global pass, then merge/filter/deduplicate.  Also returns the call log. -/
def analyze_inconsistencies (oracle : List Char → Except Unit (List Char)) (batch_size : ℕ)
    (slides : List SlideContent) : List Inconsistency × List (CallKind × List Char) :=
  let batch_results := batch_analysis oracle batch_size slides
  let global_results := cross_slide_analysis oracle slides
  (analyze_core (batch_results.1 ++ global_results.1), batch_results.2 ++ global_results.2)

/-- The 13-slide deck of the §8 scenario. -/
def deck13 : List SlideContent :=
  (List.range 13).map (fun i => ⟨i + 1, [], []⟩)

/-! ### Lemmas about deduplication -/

theorem remove_dup_aux_subset {x : Inconsistency} :
    ∀ {l : List Inconsistency} {seen : List (List ℤ × List Char)},
      x ∈ remove_dup_aux l seen → x ∈ l := by
  intro l
  induction l with
  | nil => intro seen h; simp [remove_dup_aux] at h
  | cons a rest ih =>
    intro seen h
    simp only [remove_dup_aux] at h
    by_cases hk : dedup_key a ∈ seen
    · simp only [if_pos hk] at h
      exact List.mem_cons_of_mem _ (ih h)
    · simp only [if_neg hk, List.mem_cons] at h
      rcases h with h | h
      · exact h ▸ List.mem_cons_self _ _
      · exact List.mem_cons_of_mem _ (ih h)

theorem remove_dup_aux_key_not_seen {x : Inconsistency} :
    ∀ {l : List Inconsistency} {seen : List (List ℤ × List Char)},
      x ∈ remove_dup_aux l seen → dedup_key x ∉ seen := by
  intro l
  induction l with
  | nil => intro seen h; simp [remove_dup_aux] at h
  | cons a rest ih =>
    intro seen h
    simp only [remove_dup_aux] at h
    by_cases hk : dedup_key a ∈ seen
    · simp only [if_pos hk] at h
      exact ih h
    · simp only [if_neg hk, List.mem_cons] at h
      rcases h with h | h
      · exact h ▸ hk
      · intro hmem
        exact ih h (List.mem_cons_of_mem _ hmem)

theorem remove_dup_aux_pairwise :
    ∀ (l : List Inconsistency) (seen : List (List ℤ × List Char)),
      (remove_dup_aux l seen).Pairwise (fun a b => dedup_key a ≠ dedup_key b) := by
  intro l
  induction l with
  | nil => intro seen; simp [remove_dup_aux]
  | cons a rest ih =>
    intro seen
    simp only [remove_dup_aux]
    by_cases hk : dedup_key a ∈ seen
    · simp only [if_pos hk]; exact ih seen
    · simp only [if_neg hk]
      refine List.Pairwise.cons ?_ (ih _)
      intro y hy
      have := remove_dup_aux_key_not_seen hy
      intro hEq
      exact this (hEq ▸ List.mem_cons_self _ _)

theorem remove_dup_aux_of_pairwise :
    ∀ (l : List Inconsistency) (seen : List (List ℤ × List Char)),
      (∀ x ∈ l, dedup_key x ∉ seen) →
      l.Pairwise (fun a b => dedup_key a ≠ dedup_key b) →
      remove_dup_aux l seen = l := by
  intro l
  induction l with
  | nil => intro seen _ _; rfl
  | cons a rest ih =>
    intro seen hseen hpw
    have ha : dedup_key a ∉ seen := hseen a (List.mem_cons_self _ _)
    simp only [remove_dup_aux, if_neg ha]
    congr 1
    rcases List.pairwise_cons.mp hpw with ⟨hhead, htail⟩
    refine ih _ ?_ htail
    intro x hx
    simp only [List.mem_cons]
    rintro (h | h)
    · exact hhead x hx h.symm
    · exact hseen x (List.mem_cons_of_mem _ hx) h

theorem remove_dup_aux_eq_keep_first_bounded :
    ∀ (n : ℕ) (l : List Inconsistency), l.length ≤ n →
      ∀ (seen : List (List ℤ × List Char)),
      remove_dup_aux l seen
        = keep_first_by_key (l.filter (fun y => decide (dedup_key y ∉ seen))) := by
  intro n
  induction n with
  | zero =>
    intro l hl seen
    have : l = [] := List.length_eq_zero.mp (Nat.le_zero.mp hl)
    subst this; simp [remove_dup_aux, keep_first_by_key]
  | succ n ih =>
    intro l hl seen
    match l with
    | [] => simp [remove_dup_aux, keep_first_by_key]
    | a :: rest =>
      have hrest : rest.length ≤ n := by simpa using hl
      by_cases hk : dedup_key a ∈ seen
      · have h1 : remove_dup_aux (a :: rest) seen = remove_dup_aux rest seen := by
          simp only [remove_dup_aux, if_pos hk]
        have h2 : (a :: rest).filter (fun y => decide (dedup_key y ∉ seen))
            = rest.filter (fun y => decide (dedup_key y ∉ seen)) := by
          simp [List.filter_cons, hk]
        rw [h1, h2]
        exact ih rest hrest seen
      · have h1 : remove_dup_aux (a :: rest) seen
            = a :: remove_dup_aux rest (dedup_key a :: seen) := by
          simp only [remove_dup_aux, if_neg hk]
        have h2 : (a :: rest).filter (fun y => decide (dedup_key y ∉ seen))
            = a :: rest.filter (fun y => decide (dedup_key y ∉ seen)) := by
          simp [List.filter_cons, hk]
        rw [h1, h2]
        have h3 : keep_first_by_key (a :: rest.filter (fun y => decide (dedup_key y ∉ seen)))
            = a :: keep_first_by_key
                ((rest.filter (fun y => decide (dedup_key y ∉ seen))).filter
                  (fun y => decide (dedup_key y ≠ dedup_key a))) := by
          simp [keep_first_by_key]
        rw [h3]
        congr 1
        have h4 : (rest.filter (fun y => decide (dedup_key y ∉ seen))).filter
              (fun y => decide (dedup_key y ≠ dedup_key a))
            = rest.filter (fun y => decide (dedup_key y ∉ dedup_key a :: seen)) := by
          rw [List.filter_filter]
          apply List.filter_congr
          intro y _
          by_cases hya : dedup_key y = dedup_key a <;> by_cases hys : dedup_key y ∈ seen <;>
            simp [hya, hys]
        rw [h4]
        exact ih rest hrest (dedup_key a :: seen)

/-- C2: `_remove_duplicates` keeps exactly the first finding per deduplication
key (sorted slide tuple, lowercase 50-character issue prefix) in iteration
order and drops every later finding with the same key; in the pipeline the
iteration order is discovery order, batch-pass findings followed by
global-pass findings (line 103: `all_issues = batch_results + global_results`). -/
theorem remove_duplicates_keeps_first :
    (∀ l : List Inconsistency, remove_duplicates l = keep_first_by_key l)
    ∧ (∀ (oracle : List Char → Except Unit (List Char)) (bs : ℕ) (slides : List SlideContent),
        (analyze_inconsistencies oracle bs slides).1
          = keep_first_by_key (((batch_analysis oracle bs slides).1
              ++ (cross_slide_analysis oracle slides).1).filter
                (fun i => decide (Rat.divInt 7 10 ≤ i.confidence)))) := by
  have hmain : ∀ l : List Inconsistency, remove_duplicates l = keep_first_by_key l := by
    intro l
    have h := remove_dup_aux_eq_keep_first_bounded l.length l (Nat.le_refl _) []
    have h2 : l.filter (fun y => decide (dedup_key y ∉ ([] : List (List ℤ × List Char)))) = l := by
      apply List.filter_eq_self.mpr
      intro a _
      simp
    rw [remove_duplicates, h, h2]
  exact ⟨hmain, fun oracle bs slides => hmain _⟩

/-- C8: deduplication is idempotent. -/
theorem remove_duplicates_idempotent :
    ∀ l : List Inconsistency, remove_duplicates (remove_duplicates l) = remove_duplicates l := by
  intro l
  apply remove_dup_aux_of_pairwise
  · intro x _; simp
  · exact remove_dup_aux_pairwise l []

/-! ### Claims C5, C6, C7: the parser boundary -/

theorem isPrefixOf_append_self (p t : List Char) : p.isPrefixOf (p ++ t) = true := by
  induction p with
  | nil => simp [List.isPrefixOf]
  | cons c cs ih => simp [List.isPrefixOf, ih]

/-- C5: on malformed JSON, on JSON whose top level lacks the
`inconsistencies` key, and on any other failure while building findings,
`_parse_response` returns the empty list.  (It is a total function of the
reply text, so it cannot raise past its boundary; the warning prints on
lines 256-257, including the 200-character reply prefix, are I/O and outside
the embedding.) -/
theorem parse_failure_yields_empty (s : List Char) (sl : List SlideContent)
    (h : parse_failure_b s = true) : parse_response s sl = [] := by
  unfold parse_response
  unfold parse_failure_b at h
  cases hl : json_loads (clean_text s) with
  | none => simp [hl]
  | some d =>
    rw [hl] at h
    have h2 : (missing_key_b d || except_is_err (build_findings d)) = true := h
    cases hbf : build_findings d with
    | error e => simp [hl, hbf]
    | ok res =>
      rw [hbf] at h2
      simp only [except_is_err, Bool.or_false] at h2
      cases d with
      | obj fields =>
        cases hdg : dict_get ("inconsistencies").data fields with
        | some v => simp [missing_key_b, hdg] at h2
        | none =>
          have hok : build_findings (Json.obj fields) = Except.ok [] := by
            simp [build_findings, hdg, build_all]
          rw [hbf] at hok
          simp only [Except.ok.injEq] at hok
          simp [hl, hbf, hok]
      | null => simp [missing_key_b] at h2
      | bool b => simp [missing_key_b] at h2
      | num q => simp [missing_key_b] at h2
      | str cs => simp [missing_key_b] at h2
      | arr items => simp [missing_key_b] at h2

theorem parse_failure_yields_empty_witness :
    parse_failure_b (("not json").data) = true
    ∧ parse_response (("not json").data) [] = [] :=
  ⟨by decide, parse_failure_yields_empty (("not json").data) [] (by decide)⟩

theorem except_bind_ok {α β : Type} (a : α) (f : α → Except Unit β) :
    (Except.ok a >>= f) = f a := rfl

theorem except_bind_err {α β : Type} (e : Unit) (f : α → Except Unit β) :
    ((Except.error e : Except Unit α) >>= f) = Except.error e := rfl

theorem build_all_length :
    ∀ (items : List Json) (findings : List Inconsistency),
      build_all items = Except.ok findings → findings.length = items.length := by
  intro items
  induction items with
  | nil =>
    intro findings h
    simp only [build_all, Except.ok.injEq] at h
    simp [← h]
  | cons j rest ih =>
    intro findings h
    simp only [build_all] at h
    cases h1 : build_one j with
    | error e => rw [h1] at h; simp at h
    | ok f =>
      rw [h1] at h
      cases h2 : build_all rest with
      | error e => rw [h2] at h; simp at h
      | ok fs =>
        rw [h2] at h
        simp only [Except.ok.injEq] at h
        subst h
        simp [ih fs h2]

theorem build_one_obj_fields (fields : List (List Char × Json)) (f : Inconsistency)
    (h : build_one_obj fields = Except.ok f) :
    as_str ((dict_get ("type").data fields).getD (Json.str ("Unknown").data)) = Except.ok f.type
    ∧ py_float_j ((dict_get ("confidence").data fields).getD (Json.num 0)) = Except.ok f.confidence
    ∧ as_int_list ((dict_get ("slides").data fields).getD (Json.arr [])) = Except.ok f.slides
    ∧ as_str ((dict_get ("issue").data fields).getD (Json.str [])) = Except.ok f.issue
    ∧ as_str_list ((dict_get ("evidence").data fields).getD (Json.arr []))
        = Except.ok f.evidence := by
  unfold build_one_obj at h
  cases h1 : as_str ((dict_get ("type").data fields).getD (Json.str ("Unknown").data)) with
  | error e => rw [h1, except_bind_err] at h; simp at h
  | ok ty =>
    rw [h1, except_bind_ok] at h
    cases h2 : py_float_j ((dict_get ("confidence").data fields).getD (Json.num 0)) with
    | error e => rw [h2, except_bind_err] at h; simp at h
    | ok conf =>
      rw [h2, except_bind_ok] at h
      cases h3 : as_int_list ((dict_get ("slides").data fields).getD (Json.arr [])) with
      | error e => rw [h3, except_bind_err] at h; simp at h
      | ok slides =>
        rw [h3, except_bind_ok] at h
        cases h4 : as_str ((dict_get ("issue").data fields).getD (Json.str [])) with
        | error e => rw [h4, except_bind_err] at h; simp at h
        | ok issue =>
          rw [h4, except_bind_ok] at h
          cases h5 : as_str_list ((dict_get ("evidence").data fields).getD (Json.arr [])) with
          | error e => rw [h5, except_bind_err] at h; simp at h
          | ok evid =>
            rw [h5, except_bind_ok] at h
            simp only [Except.ok.injEq] at h
            subst h
            exact ⟨rfl, rfl, rfl, rfl, rfl⟩

/-- Helper: the success/failure and the field values of one parsed element
at the exact boundary. -/
theorem build_one_py_obj_fields (fields : List (List Char × Json)) (f : PyFinding)
    (h : build_one_py_obj fields = Except.ok f) :
    f.type = (dict_get ("type").data fields).getD (Json.str ("Unknown").data)
    ∧ py_float_full ((dict_get ("confidence").data fields).getD (Json.num 0))
        = Except.ok f.confidence
    ∧ f.slides = (dict_get ("slides").data fields).getD (Json.arr [])
    ∧ f.issue = (dict_get ("issue").data fields).getD (Json.str [])
    ∧ f.evidence = (dict_get ("evidence").data fields).getD (Json.arr []) := by
  unfold build_one_py_obj at h
  cases h2 : py_float_full ((dict_get ("confidence").data fields).getD (Json.num 0)) with
  | error e => rw [h2, except_bind_err] at h; simp at h
  | ok conf =>
    rw [h2, except_bind_ok] at h
    simp only [Except.ok.injEq] at h
    subst h
    exact ⟨rfl, rfl, rfl, rfl, rfl⟩

theorem build_all_py_length :
    ∀ (items : List Json) (findings : List PyFinding),
      build_all_py items = Except.ok findings → findings.length = items.length := by
  intro items
  induction items with
  | nil =>
    intro findings h
    simp only [build_all_py, Except.ok.injEq] at h
    simp [← h]
  | cons j rest ih =>
    intro findings h
    simp only [build_all_py] at h
    cases h1 : build_one_py j with
    | error e => rw [h1] at h; simp at h
    | ok f =>
      rw [h1] at h
      cases h2 : build_all_py rest with
      | error e => rw [h2] at h; simp at h
      | ok fs =>
        rw [h2] at h
        simp only [Except.ok.injEq] at h
        subst h
        simp [ih fs h2]

theorem as_int_list_items_shape (items : List Json) (ns : List ℤ)
    (h : as_int_list_items items = Except.ok ns) :
    items = ns.map (fun n : ℤ => Json.num ((n : ℚ))) := by
  induction items generalizing ns with
  | nil =>
    simp only [as_int_list_items, Except.ok.injEq] at h
    simp [← h]
  | cons j rest ih =>
    simp only [as_int_list_items] at h
    cases h1 : as_int j with
    | error e => rw [h1] at h; simp at h
    | ok n =>
      rw [h1] at h
      cases h2 : as_int_list_items rest with
      | error e => rw [h2] at h; simp at h
      | ok ms =>
        rw [h2] at h
        simp only [Except.ok.injEq] at h
        subst h
        have hj : j = Json.num ((n : ℚ)) := by
          cases j <;> simp [as_int] at h1
          case num q =>
            by_cases hd : q.den = 1
            · rw [if_pos hd] at h1
              simp only [Except.ok.injEq] at h1
              subst h1
              rw [Rat.coe_int_num_of_den_eq_one hd]
            · rw [if_neg hd] at h1; simp at h1
        rw [List.map_cons, ← hj, ← ih ms h2]

theorem as_str_list_items_shape (items : List Json) (ss : List (List Char))
    (h : as_str_list_items items = Except.ok ss) :
    items = ss.map Json.str := by
  induction items generalizing ss with
  | nil =>
    simp only [as_str_list_items, Except.ok.injEq] at h
    simp [← h]
  | cons j rest ih =>
    simp only [as_str_list_items] at h
    cases h1 : as_str j with
    | error e => rw [h1] at h; simp at h
    | ok t =>
      rw [h1] at h
      cases h2 : as_str_list_items rest with
      | error e => rw [h2] at h; simp at h
      | ok ts =>
        rw [h2] at h
        simp only [Except.ok.injEq] at h
        subst h
        have hj : j = Json.str t := by
          cases j <;> simp [as_str] at h1
          case str u => rw [h1]
        rw [List.map_cons, ← hj, ← ih ts h2]

/-- The typed layer is the conforming restriction of the exact boundary:
whenever `build_one` (dataclass-typed) accepts an element, `build_one_py`
stores exactly the corresponding raw JSON values. -/
theorem build_one_refines_py (fields : List (List Char × Json)) (f : Inconsistency)
    (h : build_one (Json.obj fields) = Except.ok f) :
    build_one_py (Json.obj fields) = Except.ok
      { type := Json.str f.type
        confidence := PyFloat.finite f.confidence
        slides := Json.arr (f.slides.map (fun n : ℤ => Json.num ((n : ℚ))))
        issue := Json.str f.issue
        evidence := Json.arr (f.evidence.map Json.str) } := by
  have h0 : build_one_obj fields = Except.ok f := h
  obtain ⟨h1, h2, h3, h4, h5⟩ := build_one_obj_fields fields f h0
  have e1 : (dict_get ("type").data fields).getD (Json.str ("Unknown").data)
      = Json.str f.type := by
    cases hv : (dict_get ("type").data fields).getD (Json.str ("Unknown").data) <;>
      rw [hv] at h1 <;> simp [as_str] at h1
    rw [h1]
  have e2 : py_float_full ((dict_get ("confidence").data fields).getD (Json.num 0))
      = Except.ok (PyFloat.finite f.confidence) := by
    unfold py_float_j at h2
    cases hr : py_float_full ((dict_get ("confidence").data fields).getD (Json.num 0)) with
    | error e => rw [hr] at h2; simp at h2
    | ok v =>
      rw [hr] at h2
      cases v with
      | finite q => simp only [Except.ok.injEq] at h2; rw [h2]
      | inf b => simp at h2
      | nan => simp at h2
  have e3 : (dict_get ("slides").data fields).getD (Json.arr [])
      = Json.arr (f.slides.map (fun n : ℤ => Json.num ((n : ℚ)))) := by
    cases hv : (dict_get ("slides").data fields).getD (Json.arr []) <;>
      rw [hv] at h3 <;> simp [as_int_list] at h3
    case arr items => rw [as_int_list_items_shape items f.slides h3]
  have e4 : (dict_get ("issue").data fields).getD (Json.str [])
      = Json.str f.issue := by
    cases hv : (dict_get ("issue").data fields).getD (Json.str []) <;>
      rw [hv] at h4 <;> simp [as_str] at h4
    rw [h4]
  have e5 : (dict_get ("evidence").data fields).getD (Json.arr [])
      = Json.arr (f.evidence.map Json.str) := by
    cases hv : (dict_get ("evidence").data fields).getD (Json.arr []) <;>
      rw [hv] at h5 <;> simp [as_str_list] at h5
    case arr items => rw [as_str_list_items_shape items f.evidence h5]
  show build_one_py_obj fields = _
  unfold build_one_py_obj
  rw [e2, except_bind_ok, e1, e3, e4, e5]

/-- C6 counterexample: a well-formed reply whose single element carries the
non-numeric confidence `"high"`.  `float("high")` raises `ValueError`, the
bare `except` swallows it, and the whole call returns zero findings — the
element does not become a Finding with confidence 0.0 as the claim states.
The second conjunct shows the reply is well-formed JSON with exactly one
element under `inconsistencies`. -/
theorem parse_nonnumeric_confidence_cex :
    parse_response_py (("\x7b\"inconsistencies\": [\x7b\"type\": \"T\", \"confidence\": \"high\"\x7d]\x7d").data) [] = []
    ∧ json_loads (clean_text (("\x7b\"inconsistencies\": [\x7b\"type\": \"T\", \"confidence\": \"high\"\x7d]\x7d").data))
      = some (Json.obj [(("inconsistencies").data,
          Json.arr [Json.obj [(("type").data, Json.str ("T").data),
                              (("confidence").data, Json.str ("high").data)]])]) :=
  ⟨rfl, rfl⟩

/-- C6 amended: for every well-formed reply with an `inconsistencies` array
of objects, the parser builds one Finding per element, storing the raw
values with defaults only for absent keys: type `"Unknown"`, confidence 0.0,
slides empty, issue empty string, evidence empty sequence.  The non-
confidence fields are stored unvalidated (a numeric `type` is kept as-is:
final conjunct), and the only per-element operation that can raise is the
`float()` coercion of a present confidence (third conjunct); a non-coercible
confidence makes the whole call return zero findings instead of defaulting. -/
theorem parse_defaults_amended :
    (∀ (items : List Json) (findings : List PyFinding),
        build_all_py items = Except.ok findings → findings.length = items.length)
    ∧ (∀ (fields : List (List Char × Json)) (items : List Json),
        dict_get ("inconsistencies").data fields = some (Json.arr items) →
        build_findings_py (Json.obj fields) = build_all_py items)
    ∧ (∀ fields : List (List Char × Json),
        except_is_err (build_one_py (Json.obj fields))
          = except_is_err (py_float_full
              ((dict_get ("confidence").data fields).getD (Json.num 0))))
    ∧ (∀ (fields : List (List Char × Json)) (f : PyFinding),
        build_one_py (Json.obj fields) = Except.ok f →
          (dict_get ("type").data fields = none → f.type = Json.str ("Unknown").data)
        ∧ (dict_get ("confidence").data fields = none → f.confidence = PyFloat.finite 0)
        ∧ (dict_get ("slides").data fields = none → f.slides = Json.arr [])
        ∧ (dict_get ("issue").data fields = none → f.issue = Json.str [])
        ∧ (dict_get ("evidence").data fields = none → f.evidence = Json.arr []))
    ∧ parse_response_py (("\x7b\"inconsistencies\": [\x7b\"type\": 5, \"confidence\": 0.9\x7d]\x7d").data) []
        = [{ type := Json.num 5
             confidence := PyFloat.finite (Rat.divInt 9 10)
             slides := Json.arr []
             issue := Json.str []
             evidence := Json.arr [] }] := by
  refine ⟨build_all_py_length, ?_, ?_, ?_, rfl⟩
  · intro fields items hdg
    simp [build_findings_py, hdg]
  · intro fields
    show except_is_err (build_one_py_obj fields) = _
    unfold build_one_py_obj
    cases h2 : py_float_full ((dict_get ("confidence").data fields).getD (Json.num 0)) with
    | error e => rw [except_bind_err]; rfl
    | ok v => rw [except_bind_ok]; rfl
  · intro fields f h
    have h0 : build_one_py_obj fields = Except.ok f := h
    obtain ⟨h1, h2, h3, h4, h5⟩ := build_one_py_obj_fields fields f h0
    refine ⟨?_, ?_, ?_, ?_, ?_⟩
    · intro hdg; rw [hdg] at h1; exact h1
    · intro hdg; rw [hdg] at h2
      simp only [Option.getD_none] at h2
      have : py_float_full (Json.num 0) = Except.ok (PyFloat.finite 0) := rfl
      rw [this] at h2
      simp only [Except.ok.injEq] at h2
      exact h2.symm
    · intro hdg; rw [hdg] at h3; exact h3
    · intro hdg; rw [hdg] at h4; exact h4
    · intro hdg; rw [hdg] at h5; exact h5

theorem parse_defaults_amended_witness :
    (({ type := Json.str ("Unknown").data
        confidence := PyFloat.finite 0
        slides := Json.arr []
        issue := Json.str []
        evidence := Json.arr [] } : PyFinding).type = Json.str ("Unknown").data)
    ∧ (([] : List PyFinding).length = ([] : List Json).length) :=
  ⟨(parse_defaults_amended.2.2.2.1 []
      ({ type := Json.str ("Unknown").data
         confidence := PyFloat.finite 0
         slides := Json.arr []
         issue := Json.str []
         evidence := Json.arr [] } : PyFinding) rfl).1 rfl,
   parse_defaults_amended.1 [] [] rfl⟩

theorem py_strip_of_ends (a b : Char) (mid : List Char)
    (ha : py_is_space a = false) (hb : py_is_space b = false) :
    py_strip (a :: (mid ++ [b])) = a :: (mid ++ [b]) := by
  unfold py_strip
  have h1 : (a :: (mid ++ [b])).dropWhile py_is_space = a :: (mid ++ [b]) := by
    simp [List.dropWhile_cons, ha]
  rw [h1]
  have h2 : (a :: (mid ++ [b])).reverse = b :: (mid.reverse ++ [a]) := by
    simp
  rw [h2]
  have h3 : (b :: (mid.reverse ++ [a])).dropWhile py_is_space = b :: (mid.reverse ++ [a]) := by
    simp [List.dropWhile_cons, hb]
  rw [h3]
  simp

/-- C7 counterexample: a reply with a leading ```` ```json ```` fence but no
trailing fence.  The claim says only a present trailing marker is stripped
and the remainder is otherwise unchanged, but `text[7:-3]` removes the final
three characters of the JSON body (`spec_strip_fences` is the transformation
the spec describes). -/
theorem clean_text_fence_cex :
    clean_text (("```json\x7b\"a\": 1\x7d").data) = ("\x7b\"a\":").data
    ∧ clean_text (("```json\x7b\"a\": 1\x7d").data)
        ≠ spec_strip_fences (("```json\x7b\"a\": 1\x7d").data) := by
  exact ⟨rfl, by decide⟩

set_option maxRecDepth 40000 in
/-- C7 amended: when the reply is a complete fenced block (leading fence,
matching trailing ```` ``` ````), the enclosed body is recovered exactly; the
final three characters are removed unconditionally whenever a leading fence
is present (see the counterexample), and a language tag other than `json` is
not stripped.  The §8 scenario holds: the fenced one-element reply parses to
exactly one Finding with confidence 0.9 and slides [2, 5]. -/
theorem clean_text_amended :
    (∀ body : List Char,
      clean_text (("```json").data ++ body ++ ("```").data) = body)
    ∧ (∀ body : List Char,
        ("```json").data.isPrefixOf (("```").data ++ body ++ ("```").data) = false →
        clean_text (("```").data ++ body ++ ("```").data) = body)
    ∧ parse_response (("```json\n\x7b\"inconsistencies\":[\x7b\"type\":\"Numerical Conflict\",\"confidence\":0.9,\"slides\":[2,5],\"issue\":\"Revenue mismatch\",\"evidence\":[\"$10M\",\"$12M\"]\x7d]\x7d\n```").data) []
        = [⟨("Numerical Conflict").data, Rat.divInt 9 10, [2, 5], ("Revenue mismatch").data,
            [("$10M").data, ("$12M").data]⟩]
    ∧ clean_text (("```xml\nABC```").data) = ("xml\nABC").data := by
  have hstrip : ∀ (pre body : List Char), pre = ("``json").data ∨ pre = ("``").data →
      py_strip ('`' :: (pre ++ body ++ ("``").data ++ ['`']))
        = '`' :: (pre ++ body ++ ("``").data ++ ['`']) := by
    intro pre body _
    have := py_strip_of_ends '`' '`' (pre ++ body ++ ("``").data) (by decide) (by decide)
    simpa using this
  refine ⟨?_, ?_, ?_, rfl⟩
  · intro body
    have hshape : ("```json").data ++ body ++ ("```").data
        = '`' :: (("``json").data ++ body ++ ("``").data ++ ['`']) := by
      have e1 : ("```json").data = '`' :: ("``json").data := rfl
      have e2 : ("```").data = ("``").data ++ ['`'] := rfl
      rw [e1, e2]
      simp
    rw [hshape, clean_text]
    rw [hstrip ("``json").data body (Or.inl rfl)]
    have hpre : ("```json").data.isPrefixOf
        ('`' :: (("``json").data ++ body ++ ("``").data ++ ['`'])) = true := by
      have : '`' :: (("``json").data ++ body ++ ("``").data ++ ['`'])
          = ("```json").data ++ (body ++ ("``").data ++ ['`']) := by
        have e1 : ("```json").data = '`' :: ("``json").data := rfl
        rw [e1]; simp
      rw [this]
      exact isPrefixOf_append_self _ _
    rw [if_pos hpre]
    have hdrop : ('`' :: (("``json").data ++ body ++ ("``").data ++ ['`'])).drop 7
        = body ++ ("``").data ++ ['`'] := by
      have : '`' :: (("``json").data ++ body ++ ("``").data ++ ['`'])
          = ("```json").data ++ (body ++ ("``").data ++ ['`']) := by
        have e1 : ("```json").data = '`' :: ("``json").data := rfl
        rw [e1]; simp
      rw [this]
      have : (7 : ℕ) = ("```json").data.length := rfl
      rw [this, List.drop_left]
    rw [hdrop]
    show (body ++ ("``").data ++ ['`']).take ((body ++ ("``").data ++ ['`']).length - 3) = body
    have hlen : (body ++ ("``").data ++ ['`']).length - 3 = body.length := by
      simp
    rw [hlen]
    have : body ++ ("``").data ++ ['`'] = body ++ (("``").data ++ ['`']) := by simp
    rw [this, List.take_left]
  · intro body hnot
    rw [clean_text]
    rw [show py_strip (("```").data ++ body ++ ("```").data)
        = ("```").data ++ body ++ ("```").data from by
      have e1 : ("```").data = ['`', '`', '`'] := rfl
      rw [e1]
      have h := py_strip_of_ends '`' '`' (['`', '`'] ++ body ++ ['`', '`'])
        (by decide) (by decide)
      have hsh : '`' :: (['`', '`'] ++ body ++ ['`', '`'] ++ ['`'])
          = ['`', '`', '`'] ++ body ++ ['`', '`', '`'] := by simp
      rw [hsh] at h
      exact h]
    have hcond : ¬ (("```json").data.isPrefixOf
        (("```").data ++ body ++ ("```").data) = true) := by
      rw [hnot]; simp
    rw [if_neg hcond]
    have hpre : ("```").data.isPrefixOf (("```").data ++ body ++ ("```").data) = true := by
      have : ("```").data ++ body ++ ("```").data
          = ("```").data ++ (body ++ ("```").data) := by simp
      rw [this]
      exact isPrefixOf_append_self _ _
    rw [if_pos hpre]
    have hdrop : (("```").data ++ body ++ ("```").data).drop 3 = body ++ ("```").data := by
      have : ("```").data ++ body ++ ("```").data
          = ("```").data ++ (body ++ ("```").data) := by simp
      rw [this]
      have h3 : (3 : ℕ) = ("```").data.length := rfl
      rw [h3, List.drop_left]
    rw [hdrop]
    show (body ++ ("```").data).take ((body ++ ("```").data).length - 3) = body
    have hlen : (body ++ ("```").data).length - 3 = body.length := by simp
    rw [hlen, List.take_left]
  · rfl

theorem clean_text_amended_witness :
    (("```json").data.isPrefixOf (("```").data ++ ("\n").data ++ ("```").data) = false)
    ∧ clean_text (("```").data ++ ("\n").data ++ ("```").data) = ("\n").data :=
  ⟨by decide, clean_text_amended.2.1 (("\n").data) (by decide)⟩

/-! ### Claim C9: the whole-deck summary -/


/-- C9 counterexample: the slide text `"hello, world"` contains no digit, so
it holds none of the claim's numeric tokens (currency amounts, percentages,
K/M/B magnitudes) nor date tokens — all of which contain a digit — yet the
summary is not empty: the number pattern `\$?[\d,]+\.?\d*[%MBK]?` matches the
bare comma, so the slide gets an entry listing `','`. -/
theorem slide_summary_cex :
    summary_parts [⟨1, ("hello, world").data, []⟩] ≠ []
    ∧ findall num_pattern (("hello, world").data) = [(",").data]
    ∧ (("hello, world").data).all (fun c => !c.isDigit) = true :=
  ⟨by decide, by decide, by decide⟩

/-- C9 amended: the summary has one entry per slide listing exactly the
matches of the two patterns of lines 181 and 183 (in `re.findall` order), and
omits exactly the slides where both match lists are empty; the number pattern
also matches bare digit runs and lone comma runs, so a slide can be included
without any currency/percent/magnitude/date token.  The concrete conjuncts
evaluate the pattern semantics. -/
theorem slide_summary_amended :
    (∀ slides : List SlideContent,
      summary_parts slides = slides.filterMap (fun slide =>
        let numbers := findall num_pattern slide.text
        let dates := findall date_pattern slide.text
        if numbers.isEmpty && dates.isEmpty then none
        else some (summary_entry slide.slide_number numbers dates)))
    ∧ findall num_pattern (("Revenue grew 25% to $3.5M in 2024").data)
        = [("25%").data, ("$3.5M").data, ("2024").data]
    ∧ findall date_pattern (("Revenue grew 25% to $3.5M in 2024").data) = [("2024").data]
    ∧ create_slide_summary [⟨1, ("hello, world").data, []⟩]
        = summary_entry 1 [(",").data] [] := by
  refine ⟨?_, by decide, by decide, by decide⟩
  intro slides
  induction slides with
  | nil => rfl
  | cons x rest ih =>
    cases hc : (findall num_pattern x.text).isEmpty && (findall date_pattern x.text).isEmpty with
    | true =>
      simp [summary_parts, List.filterMap_cons, hc, ih]
      have hc2 : findall num_pattern x.text = [] ∧ findall date_pattern x.text = [] := by
        simpa using hc
      rw [if_pos hc2]
    | false =>
      simp [summary_parts, List.filterMap_cons, hc, ih]
      have hc2 : ¬ (findall num_pattern x.text = [] ∧ findall date_pattern x.text = []) := by
        intro hcon
        rw [hcon.1, hcon.2] at hc
        simp at hc
      rw [if_neg hc2]

/-! ### Claim C1: the output invariant of `analyze_inconsistencies` -/

/-- C1: every finding returned by `analyze_inconsistencies` has confidence at
least 0.7 and the returned findings are pairwise distinct under the
deduplication key — for every merged findings list (any mix of confidences,
any batch/global outcomes) and, equivalently, for every oracle behaviour in
the full pipeline. -/
theorem analyze_output_invariant :
    (∀ all_issues : List Inconsistency,
      ((analyze_core all_issues).all (fun f => decide (Rat.divInt 7 10 ≤ f.confidence)) = true)
      ∧ (analyze_core all_issues).Pairwise (fun a b => dedup_key a ≠ dedup_key b))
    ∧ (∀ (oracle : List Char → Except Unit (List Char)) (bs : ℕ) (slides : List SlideContent),
      (((analyze_inconsistencies oracle bs slides).1.all
          (fun f => decide (Rat.divInt 7 10 ≤ f.confidence))) = true)
      ∧ (analyze_inconsistencies oracle bs slides).1.Pairwise
          (fun a b => dedup_key a ≠ dedup_key b)) := by
  have hcore : ∀ all_issues : List Inconsistency,
      ((analyze_core all_issues).all (fun f => decide (Rat.divInt 7 10 ≤ f.confidence)) = true)
      ∧ (analyze_core all_issues).Pairwise (fun a b => dedup_key a ≠ dedup_key b) := by
    intro l
    constructor
    · rw [List.all_eq_true]
      intro f hf
      have h1 : f ∈ l.filter (fun i => decide (Rat.divInt 7 10 ≤ i.confidence)) :=
        remove_dup_aux_subset hf
      exact (List.mem_filter.mp h1).2
    · exact remove_dup_aux_pairwise _ []
  exact ⟨hcore, fun oracle bs slides => hcore _⟩

/-! ### Claim C3: batching -/

theorem batchesAux_nil (bs fuel : ℕ) : batchesAux bs fuel [] = [] := by
  cases fuel <;> rfl

theorem batchesAux_flatten (bs : ℕ) (hbs : 1 ≤ bs) :
    ∀ (fuel : ℕ) (l : List SlideContent), l.length ≤ fuel →
      (batchesAux bs fuel l).flatten = l := by
  intro fuel
  induction fuel with
  | zero =>
    intro l hl
    have hn : l = [] := List.length_eq_zero.mp (Nat.le_zero.mp hl)
    subst hn; rfl
  | succ n ih =>
    intro l hl
    match l with
    | [] => rfl
    | x :: xs =>
      simp only [batchesAux, List.flatten_cons]
      rw [ih ((x :: xs).drop bs) (by
        rw [List.length_drop]
        simp only [List.length_cons] at hl ⊢
        omega)]
      exact List.take_append_drop bs (x :: xs)

theorem batchesAux_mem (bs : ℕ) (hbs : 1 ≤ bs) :
    ∀ (fuel : ℕ) (l : List SlideContent), l.length ≤ fuel →
      ∀ b ∈ batchesAux bs fuel l, (1 ≤ b.length ∧ b.length ≤ bs) ∧ b ⊆ l := by
  intro fuel
  induction fuel with
  | zero => intro l _ b hb; simp [batchesAux] at hb
  | succ n ih =>
    intro l hl b hb
    match l with
    | [] => simp [batchesAux] at hb
    | x :: xs =>
      simp only [batchesAux, List.mem_cons] at hb
      rcases hb with hb | hb
      · subst hb
        refine ⟨⟨?_, ?_⟩, List.take_subset bs (x :: xs)⟩
        · rw [List.length_take]
          simp only [List.length_cons]
          omega
        · rw [List.length_take]
          exact Nat.min_le_left _ _
      · have hd : ((x :: xs).drop bs).length ≤ n := by
          rw [List.length_drop]
          simp only [List.length_cons] at hl ⊢
          omega
        obtain ⟨hlen, hsub⟩ := ih ((x :: xs).drop bs) hd b hb
        exact ⟨hlen, hsub.trans (List.drop_subset bs (x :: xs))⟩

theorem batchesAux_dropLast (bs : ℕ) (hbs : 1 ≤ bs) :
    ∀ (fuel : ℕ) (l : List SlideContent), l.length ≤ fuel →
      ∀ b ∈ (batchesAux bs fuel l).dropLast, b.length = bs := by
  intro fuel
  induction fuel with
  | zero => intro l _ b hb; simp [batchesAux] at hb
  | succ n ih =>
    intro l hl b hb
    match l with
    | [] => simp [batchesAux] at hb
    | x :: xs =>
      simp only [batchesAux] at hb
      cases hd : (x :: xs).drop bs with
      | nil => rw [hd, batchesAux_nil] at hb; simp at hb
      | cons y ys =>
        rw [hd] at hb
        have hlend : (y :: ys).length ≤ n := by
          have := congrArg List.length hd
          rw [List.length_drop] at this
          simp only [List.length_cons] at this hl ⊢
          omega
        have hbslt : bs < (x :: xs).length := by
          have := congrArg List.length hd
          rw [List.length_drop] at this
          simp only [List.length_cons] at this ⊢
          omega
        cases haux : batchesAux bs n (y :: ys) with
        | nil => rw [haux] at hb; simp at hb
        | cons c cs =>
          rw [haux] at hb
          have hdl : ((x :: xs).take bs :: c :: cs).dropLast
              = (x :: xs).take bs :: (c :: cs).dropLast := rfl
          rw [hdl, List.mem_cons] at hb
          rcases hb with hb | hb
          · subst hb
            rw [List.length_take]
            omega
          · exact ih (y :: ys) hlend b (by rw [haux]; exact hb)

theorem analyze_batch_log (oracle : List Char → Except Unit (List Char))
    (b : List SlideContent) :
    (analyze_batch oracle b).2 = [(CallKind.batch, build_prompt (format_slides b) true)] := by
  unfold analyze_batch
  cases h : oracle (build_prompt (format_slides b) true) <;> simp [h]

theorem cross_slide_log (oracle : List Char → Except Unit (List Char))
    (slides : List SlideContent) :
    (cross_slide_analysis oracle slides).2
      = [(CallKind.globalPass, build_prompt (create_slide_summary slides) false)] := by
  unfold cross_slide_analysis analyze_global_stuff
  cases h : oracle (build_prompt (create_slide_summary slides) false) <;> simp [h]

theorem batch_go_log (oracle : List Char → Except Unit (List Char)) :
    ∀ bl : List (List SlideContent),
      ((batch_analysis_go oracle bl).2.length = bl.length)
      ∧ ∀ c ∈ (batch_analysis_go oracle bl).2, c.1 = CallKind.batch := by
  intro bl
  induction bl with
  | nil => exact ⟨rfl, by intro c hc; simp [batch_analysis_go] at hc⟩
  | cons b rest ih =>
    constructor
    · show ((analyze_batch oracle b).2 ++ (batch_analysis_go oracle rest).2).length = _
      rw [List.length_append, analyze_batch_log, ih.1]
      simp [Nat.add_comm]
    · intro c hc
      have hc2 : c ∈ (analyze_batch oracle b).2 ++ (batch_analysis_go oracle rest).2 := hc
      rw [List.mem_append] at hc2
      rcases hc2 with hc2 | hc2
      · rw [analyze_batch_log] at hc2
        simp only [List.mem_singleton] at hc2
        rw [hc2]
      · exact ih.2 c hc2

theorem analyze_log_counts (oracle : List Char → Except Unit (List Char)) (bs : ℕ)
    (slides : List SlideContent) :
    ((analyze_inconsistencies oracle bs slides).2.filter
        (fun c => decide (c.1 = CallKind.globalPass))).length = 1
    ∧ ((analyze_inconsistencies oracle bs slides).2.filter
        (fun c => decide (c.1 = CallKind.batch))).length = (batches bs slides).length := by
  have hlog : (analyze_inconsistencies oracle bs slides).2
      = (batch_analysis_go oracle (batches bs slides)).2
        ++ [(CallKind.globalPass, build_prompt (create_slide_summary slides) false)] := by
    show (batch_analysis_go oracle (batches bs slides)).2
        ++ (cross_slide_analysis oracle slides).2 = _
    rw [cross_slide_log]
  rw [hlog]
  constructor
  · rw [List.filter_append]
    have h1 : (batch_analysis_go oracle (batches bs slides)).2.filter
        (fun c => decide (c.1 = CallKind.globalPass)) = [] := by
      rw [List.filter_eq_nil_iff]
      intro c hc
      have hck := (batch_go_log oracle (batches bs slides)).2 c hc
      simp [hck]
    rw [h1]
    simp
  · rw [List.filter_append]
    have h1 : (batch_analysis_go oracle (batches bs slides)).2.filter
        (fun c => decide (c.1 = CallKind.batch))
        = (batch_analysis_go oracle (batches bs slides)).2 := by
      rw [List.filter_eq_self]
      intro c hc
      have hck := (batch_go_log oracle (batches bs slides)).2 c hc
      simp [hck]
    rw [h1]
    simp [(batch_go_log oracle (batches bs slides)).1]

/-- C3: for every batch size from 1 up (including up to the deck size), the
partition is into contiguous groups: concatenating all batches reconstructs
the slide sequence, every non-final group has exactly `batch_size` slides and
every group is nonempty with at most `batch_size`; a 13-slide deck at batch
size 6 gives batches of sizes 6, 6, 1; and for every oracle the call log
shows exactly one global-pass call regardless of the batch count, with one
batch call per batch. -/
theorem batching_partition :
    (∀ (slides : List SlideContent) (bs : ℕ), 1 ≤ bs →
      ((batches bs slides).flatten = slides
        ∧ (∀ b ∈ (batches bs slides).dropLast, b.length = bs)
        ∧ (∀ b ∈ batches bs slides, 1 ≤ b.length ∧ b.length ≤ bs)))
    ∧ ((batches 6 deck13).map (fun b => b.length) = [6, 6, 1])
    ∧ (∀ (oracle : List Char → Except Unit (List Char)) (bs : ℕ) (slides : List SlideContent),
        ((analyze_inconsistencies oracle bs slides).2.filter
            (fun c => decide (c.1 = CallKind.globalPass))).length = 1
        ∧ ((analyze_inconsistencies oracle bs slides).2.filter
            (fun c => decide (c.1 = CallKind.batch))).length = (batches bs slides).length) := by
  refine ⟨?_, by decide, analyze_log_counts⟩
  intro slides bs hbs
  exact ⟨batchesAux_flatten bs hbs slides.length slides (Nat.le_refl _),
    batchesAux_dropLast bs hbs slides.length slides (Nat.le_refl _),
    fun b hb => (batchesAux_mem bs hbs slides.length slides (Nat.le_refl _) b hb).1⟩

theorem batching_partition_witness :
    (batches 6 deck13).flatten = deck13
    ∧ ((analyze_inconsistencies (fun _ => Except.error ()) 6 deck13).2.filter
        (fun c => decide (c.1 = CallKind.globalPass))).length = 1 :=
  ⟨((batching_partition.1 deck13 6 (by decide)).1),
    (batching_partition.2.2 (fun _ => Except.error ()) 6 deck13).1⟩

/-! ### Claim C4: one record per slide -/

/-- C4: extraction yields exactly one `SlideContent` per slide, in slide
order, with slide numbers `1..N` consecutive (that is, `range' 1 N`), even
when a slide has zero text-bearing shapes (third conjunct: a deck whose one
slide has no shapes at all). -/
theorem extraction_one_record_per_slide :
    (∀ (deck : List Slide) (use_ocr : Bool),
      (extract_slide_content deck use_ocr).length = deck.length
      ∧ (extract_slide_content deck use_ocr).map (fun s => s.slide_number)
          = List.range' 1 deck.length)
    ∧ extract_slide_content [⟨[]⟩] true = [⟨1, [], []⟩] := by
  refine ⟨?_, rfl⟩
  intro deck use_ocr
  constructor
  · rw [extract_slide_content, List.length_map, List.enumFrom_length]
  · rw [extract_slide_content, List.map_map]
    have hcomp : ((fun s : SlideContent => s.slide_number) ∘ (fun p : ℕ × Slide =>
        ({ slide_number := p.1
           text := get_slide_text p.2
           ocr_text := if use_ocr then get_ocr_text p.2 else [] } : SlideContent)))
        = Prod.fst := rfl
    rw [hcomp, List.enumFrom_map_fst]

/-! ### Claim C10: OCR text is always empty -/

theorem foldl_image_id (l : List Shape) :
    ∀ acc : List (List Char), l.foldl (fun acc shape => if shape.image then acc else acc) acc
      = acc := by
  induction l with
  | nil => intro acc; rfl
  | cons x rest ih =>
    intro acc
    rw [List.foldl_cons]
    cases x.image <;> exact ih acc

theorem get_ocr_text_empty (slide : Slide) : get_ocr_text slide = [] := by
  rw [get_ocr_text, foldl_image_id]
  rfl

theorem extract_ocr_empty (deck : List Slide) (u : Bool) :
    ∀ s ∈ extract_slide_content deck u, s.ocr_text = [] := by
  intro s hs
  rw [extract_slide_content, List.mem_map] at hs
  obtain ⟨p, _, hp⟩ := hs
  rw [← hp]
  cases u
  · rfl
  · simp [get_ocr_text_empty]

theorem format_slides_eq_plain (batch : List SlideContent)
    (h : ∀ s ∈ batch, s.ocr_text = []) :
    format_slides batch = format_slides_plain batch := by
  rw [format_slides, format_slides_plain]
  congr 1
  apply List.map_congr_left
  intro s hs
  rw [h s hs]
  rfl

/-- C10: `_get_ocr_text` unconditionally returns the empty string, so every
extracted `SlideContent` has empty `ocr_text` even with OCR enabled, and
the formatted text of every batch of extracted slides never gains the
`[OCR TEXT]` section (it equals the formatting with that branch removed). -/
theorem ocr_text_always_empty :
    (∀ slide : Slide, get_ocr_text slide = [])
    ∧ (∀ (deck : List Slide) (u : Bool),
        (extract_slide_content deck u).all (fun s => s.ocr_text.isEmpty) = true)
    ∧ (∀ (deck : List Slide) (u : Bool) (bs : ℕ),
        (batches bs (extract_slide_content deck u)).map format_slides
          = (batches bs (extract_slide_content deck u)).map format_slides_plain) := by
  refine ⟨get_ocr_text_empty, ?_, ?_⟩
  · intro deck u
    rw [List.all_eq_true]
    intro s hs
    rw [extract_ocr_empty deck u s hs]
    rfl
  · intro deck u bs
    apply List.map_congr_left
    intro b hb
    apply format_slides_eq_plain
    intro s hsb
    cases hbs0 : bs.beq 0
    · have hbs : 1 ≤ bs := by
        have := Nat.ne_of_beq_eq_false hbs0
        omega
      have hsub := (batchesAux_mem bs hbs (extract_slide_content deck u).length
        (extract_slide_content deck u) (Nat.le_refl _) b hb).2
      exact extract_ocr_empty deck u s (hsub hsb)
    · have hbs : bs = 0 := Nat.eq_of_beq_eq_true hbs0
      subst hbs
      have hsub : ∀ (fuel : ℕ) (l : List SlideContent), ∀ b ∈ batchesAux 0 fuel l, b ⊆ l := by
        intro fuel
        induction fuel with
        | zero => intro l bb hbb; simp [batchesAux] at hbb
        | succ n ih =>
          intro l bb hbb
          match l with
          | [] => simp [batchesAux] at hbb
          | x :: xs =>
            simp only [batchesAux, List.mem_cons] at hbb
            rcases hbb with hbb | hbb
            · subst hbb; exact List.take_subset _ _
            · exact (ih _ bb hbb).trans (List.drop_subset _ _)
      exact extract_ocr_empty deck u s
        (hsub (extract_slide_content deck u).length _ b hb hsb)

theorem remove_duplicates_keeps_first_witness :
    remove_duplicates [⟨("T").data, 1, [1], ("a").data, []⟩, ⟨("U").data, 1, [1], ("a").data, []⟩]
      = keep_first_by_key
          [⟨("T").data, 1, [1], ("a").data, []⟩, ⟨("U").data, 1, [1], ("a").data, []⟩] :=
  remove_duplicates_keeps_first.1
    [⟨("T").data, 1, [1], ("a").data, []⟩, ⟨("U").data, 1, [1], ("a").data, []⟩]

theorem remove_duplicates_idempotent_witness :
    remove_duplicates (remove_duplicates [⟨("T").data, 1, [1], ("a").data, []⟩])
      = remove_duplicates [⟨("T").data, 1, [1], ("a").data, []⟩] :=
  remove_duplicates_idempotent [⟨("T").data, 1, [1], ("a").data, []⟩]

theorem analyze_output_invariant_witness :
    ((analyze_core [⟨("T").data, 1, [1], ("x").data, []⟩]).all
        (fun f => decide (Rat.divInt 7 10 ≤ f.confidence)) = true)
    ∧ (analyze_core [⟨("T").data, 1, [1], ("x").data, []⟩]).Pairwise
        (fun a b => dedup_key a ≠ dedup_key b) :=
  analyze_output_invariant.1 [⟨("T").data, 1, [1], ("x").data, []⟩]

theorem extraction_one_record_per_slide_witness :
    (extract_slide_content [(⟨[]⟩ : Slide), ⟨[]⟩] false).length
        = ([(⟨[]⟩ : Slide), ⟨[]⟩] : List Slide).length
    ∧ (extract_slide_content [(⟨[]⟩ : Slide), ⟨[]⟩] false).map (fun s => s.slide_number)
        = List.range' 1 ([(⟨[]⟩ : Slide), ⟨[]⟩] : List Slide).length :=
  extraction_one_record_per_slide.1 [⟨[]⟩, ⟨[]⟩] false

theorem slide_summary_amended_witness :
    summary_parts [⟨1, ("hello, world").data, []⟩]
      = [(⟨1, ("hello, world").data, []⟩ : SlideContent)].filterMap (fun slide =>
          let numbers := findall num_pattern slide.text
          let dates := findall date_pattern slide.text
          if numbers.isEmpty && dates.isEmpty then none
          else some (summary_entry slide.slide_number numbers dates)) :=
  slide_summary_amended.1 [⟨1, ("hello, world").data, []⟩]

theorem ocr_text_always_empty_witness :
    (extract_slide_content [(⟨[]⟩ : Slide)] true).all (fun s => s.ocr_text.isEmpty) = true :=
  ocr_text_always_empty.2.1 [⟨[]⟩] true

end PptChecker
